import Mathlib

/-!
Verification development for the pipeline orchestration engine of the
`trigger` repository.  The definitions below are shallow embeddings of the
TypeScript source: the pipeline executor (`src/pipeline/executor.ts`,
registry-based revision), the crash-recovery queries (`src/db/queries.ts`),
the template resolver (`src/config/template.ts`), the `trigger-pipeline`
action (`src/pipeline/actions/trigger-pipeline.ts`), the polling helper
(`src/pipeline/actions/aws-utils.ts`) and the event bus (`src/events.ts`).
Stateful code is modelled by explicit state passing; fallible code returns
`Except`; JavaScript exceptions become `Except.error` values.
-/

namespace Trigger

/-- Step status domain, from `src/types.ts`: `pending`, `running`,
`success`, `failed`, `skipped`. -/
inductive StepStatus
| pending
| running
| success
| failed
| skipped
deriving DecidableEq, Repr

/-- Run status domain, from `src/types.ts`: `pending`, `running`,
`success`, `failed`, `cancelled`. -/
inductive RunStatus
| pending
| running
| success
| failed
| cancelled
deriving DecidableEq, Repr

/-! ## Event bus (`src/events.ts`)

Subscribers are identified by opaque ids (`Nat`); a subscriber callback is
modelled by a function `call : Nat → Except String Unit` giving the result
of invoking that callback on the published message (`Except.error` when the
callback throws).  The bus keeps per-topic listener sets and a global set;
`publish` looks the topic up (the literal topic "global" selects the global
set) and invokes every listener in order, with the source's per-listener
try/catch modelled by recording each callback's `Except` outcome and
continuing with the rest of the list. -/

/-- Listener registry of the event bus: per-topic listener sets plus the
global listener set, as in `src/events.ts`. -/
structure Bus where
  topicListeners : List (String × List Nat)
  globalListeners : List Nat
deriving DecidableEq, Repr

/-- What happened to one listener during a publish: its callback returned,
or it threw and the exception was caught and logged (the catch block of the
`for` loop in `publish`). -/
inductive DeliveryResult
| delivered
| threwCaught (err : String)
deriving DecidableEq, Repr

/-- The delivery loop of `publish`: `for (const fn of listeners) { try {
fn(message) } catch (err) { log } }`.  Each listener is invoked in order;
a thrown callback is caught (recorded as `threwCaught`) and the loop
continues.  Returns `Except.error` only if an exception escapes the loop
itself — the per-iteration catch means it never does, which is exactly
what the theorem for the publish claim establishes. -/
def deliverAll (call : Nat → Except String Unit) : List Nat → Except String (List (Nat × DeliveryResult))
| [] => .ok []
| fn :: rest =>
  let note : DeliveryResult :=
    match call fn with
    | .ok _ => .delivered
    | .error e => .threwCaught e
  (deliverAll call rest).map (fun ds => (fn, note) :: ds)

/-- `publish(topic, message)` from `src/events.ts`: select the global
listener set for the literal topic "global", otherwise look the topic up in
the per-topic map; if there is no entry, return without doing anything;
otherwise run the delivery loop. -/
def publish (bus : Bus) (topic : String) (call : Nat → Except String Unit) : Except String (List (Nat × DeliveryResult)) :=
  let listeners : Option (List Nat) :=
    if topic = "global" then some bus.globalListeners
    else bus.topicListeners.lookup topic
  match listeners with
  | none => .ok []
  | some ls => deliverAll call ls

/-! ## Step loop of the executor (`runSteps` / `executeStep` in
`src/pipeline/executor.ts`)

A non-dry-run execution is modelled as a function of a schedule.  Each
loop iteration is a `LoopEntry`: either the loop-top check
`abort.signal.aborted` observed true (`abortSeen`), or `executeStep` ran
with a given `StepBehavior` — the action name was not registered
(`unregistered`), the handler returned (`ok`), the handler threw while
the run's abort signal was not set (`fails`), or the handler threw while
the abort signal was set (`cancelledThrow`).  An `AbortSignal`, once
aborted, stays aborted, so after a break caused by an observed abort the
post-loop re-read of the signal is still true; the final parameter
`finalAborted` is the value the post-loop check reads when the loop ran
through every step without observing an abort.  Events carry the step's
1-based position in the declared order (standing for its config id, which
is what `publishStepStatus` puts in the payload); log events are not
modelled, only the `step:status` / `run:status` publishes of the loop. -/

/-- A status event published on the run's topic: `step:status` for the
step at the given 1-based declared position, or `run:status`. -/
inductive Ev
| step (idx : Nat) (s : StepStatus)
| run (s : RunStatus)
deriving DecidableEq, Repr

/-- How one invocation of `executeStep` behaves. -/
inductive StepBehavior
| unregistered
| ok
| fails (msg : String)
| cancelledThrow (msg : String)
deriving DecidableEq, Repr

/-- One iteration of the `for` loop in `runSteps`. -/
inductive LoopEntry
| abortSeen
| exec (b : StepBehavior)
deriving DecidableEq, Repr

/-- The `StepResult` union of `executor.ts`:
`"success" | \x7b failed: string \x7d | "cancelled"`. -/
inductive StepResult
| success
| failedRes (msg : String)
| cancelledRes
deriving DecidableEq, Repr

/-- `executeStep` for step `i` (1-based), non-dry-run path: mark the step
running and publish; if the action is not registered, mark it skipped and
return "success" without invoking any handler; otherwise invoke the handler;
on return mark success; on throw, if the abort signal is set mark the step
skipped and return "cancelled", else mark it failed with the error text.
Returns (step result, final persisted (status, error) of the step row,
events published, whether a handler was invoked). -/
def executeStep (i : Nat) : StepBehavior → StepResult × (StepStatus × Option String) × List Ev × Bool
| .unregistered => (.success, (.skipped, none), [.step i .running, .step i .skipped], false)
| .ok => (.success, (.success, none), [.step i .running, .step i .success], true)
| .fails m => (.failedRes m, (.failed, some m), [.step i .running, .step i .failed], true)
| .cancelledThrow _ => (.cancelledRes, (.skipped, none), [.step i .running, .step i .skipped], true)

/-- Outcome of one modelled run: the final persisted (status, error) of
every step row in declared order, the status events published on the run's
topic in publish order, the final persisted run status and error, and the
1-based positions of the steps whose handler was actually invoked. -/
structure RunResult where
  steps : List (StepStatus × Option String)
  events : List Ev
  runStatus : RunStatus
  runError : Option String
  invoked : List Nat
deriving DecidableEq, Repr

/-- The `for` loop of `runSteps` starting at 1-based position `i`:
if the abort signal is observed at the loop top, `skipRemainingSteps` marks
this and all remaining steps skipped and the loop breaks (the post-loop
check then reads the — still set — signal and finishes the run cancelled);
otherwise `executeStep` runs: on "cancelled" the remaining steps are
skipped and the run finishes cancelled; on a failure the remaining steps
are skipped and the run finishes failed with the error text; on "success"
the loop continues.  When the loop runs off the end, the run finishes
cancelled or success according to the post-loop read of the signal. -/
def runStepsAux (i : Nat) : List LoopEntry → Bool → RunResult
| [], finalAborted =>
  let s : RunStatus := if finalAborted then .cancelled else .success
  ⟨[], [.run s], s, none, []⟩
| .abortSeen :: rest, _ =>
  ⟨List.replicate (rest.length + 1) (.skipped, none),
    (List.range' i (rest.length + 1)).map (fun j => Ev.step j .skipped) ++ [.run .cancelled],
    .cancelled, none, []⟩
| .exec b :: rest, finalAborted =>
  match executeStep i b with
  | (.success, row, evs, inv) =>
    let r := runStepsAux (i + 1) rest finalAborted
    ⟨row :: r.steps, evs ++ r.events, r.runStatus, r.runError,
      (if inv then [i] else []) ++ r.invoked⟩
  | (.failedRes m, row, evs, inv) =>
    ⟨row :: List.replicate rest.length (.skipped, none),
      evs ++ (List.range' (i + 1) rest.length).map (fun j => Ev.step j .skipped) ++ [.run .failed],
      .failed, some m, if inv then [i] else []⟩
  | (.cancelledRes, row, evs, inv) =>
    ⟨row :: List.replicate rest.length (.skipped, none),
      evs ++ (List.range' (i + 1) rest.length).map (fun j => Ev.step j .skipped) ++ [.run .cancelled],
      .cancelled, none, if inv then [i] else []⟩

/-- `runSteps`: run the loop over the declared steps, 1-based. -/
def runSteps (entries : List LoopEntry) (finalAborted : Bool) : RunResult :=
  runStepsAux 1 entries finalAborted

/-! ## Trigger phase of the executor (`executePipeline` in
`src/pipeline/executor.ts`)

The synchronous phase-1 of `executePipeline`: conflict check against the
in-memory active-slot map, slot insertion, config lookup (with the
try/catch that deletes the slot again on any throw), run/step row
creation, the `run:started` and `run:status` publishes, and the seeding of
the call stack handed to the asynchronous step loop.  Fresh uuidv7 run and
step ids are modelled by the caller-supplied `newRunId` and by derived
step row ids (opaque unique keys). -/

/-- The `PipelineError` class of `executor.ts`: message plus HTTP status
code. -/
structure PipelineError where
  message : String
  statusCode : Nat
deriving DecidableEq, Repr

/-- A declared pipeline step (`StepDef` in `src/config/types.ts`), the
fields phase 1 persists. -/
structure StepDef where
  id : String
  name : String
  action : String
deriving DecidableEq, Repr

/-- A pipeline definition, as provided by the config provider. -/
structure PipelineDef where
  id : String
  name : String
  steps : List StepDef
  timeout : Option Nat
deriving DecidableEq, Repr

/-- A namespace's config document: its name (the `namespace` field) and
pipelines. -/
structure NamespaceConfig where
  ns : String
  pipelines : List PipelineDef
deriving DecidableEq, Repr

/-- A persisted `pipeline_runs` row, the fields the claims touch. -/
structure RunRow where
  id : String
  ns : String
  pipeline_id : String
  pipeline_name : String
  status : RunStatus
  params : String
  dry_run : Bool
  error : Option String
deriving DecidableEq, Repr

/-- A persisted `pipeline_steps` row, the fields the claims touch. -/
structure StepRow where
  id : String
  run_id : String
  step_id : String
  step_name : String
  action : String
  status : StepStatus
deriving DecidableEq, Repr

/-- An event of trigger phase 1: `run:started` on the `global` topic or a
`run:status` on the run's own topic. -/
inductive ExecEvent
| runStarted (runId ns pipelineId : String)
| runStatusEv (runId : String) (status : RunStatus)
deriving DecidableEq, Repr

/-- Process state visible to trigger phase 1: the in-memory
`activePipelines` slot map (key to active run id), the persisted run and
step tables, and the log of published (topic, event) pairs. -/
structure ExecState where
  slots : List (String × String)
  runs : List RunRow
  steps : List StepRow
  events : List (String × ExecEvent)
deriving DecidableEq, Repr

/-- `activePipelines.get(key)?.runId`: first binding of the key. -/
def lookupSlot (slots : List (String × String)) (key : String) : Option String :=
  slots.lookup key

/-- `activePipelines.set(key, ...)`: replace the binding if present,
insert otherwise. -/
def setSlot (slots : List (String × String)) (key rid : String) : List (String × String) :=
  if (slots.lookup key).isSome then
    slots.map (fun p => if p.1 = key then (key, rid) else p)
  else slots ++ [(key, rid)]

/-- `activePipelines.delete(key)`. -/
def deleteSlot (slots : List (String × String)) (key : String) : List (String × String) :=
  slots.filter (fun p => p.1 != key)

/-- `db.updateRunStatus`: set the status; the error column is only
overwritten when a new error is supplied (`COALESCE(?, error)`). -/
def updateRunStatusRow (runs : List RunRow) (id : String) (status : RunStatus) (err : Option String) : List RunRow :=
  runs.map (fun r =>
    if r.id = id then
      { r with status := status, error := match err with | some e => some e | none => r.error }
    else r)

/-- Phase 1 of `executePipeline(namespace, pipelineId, params, options)`:
returns the mutated state and either a thrown `PipelineError` or the new
run id together with the call stack seeded for the step loop
(`options?.parentCallStack ?? [key]`).  The conflict check happens before
any mutation; the slot is inserted before any I/O; the catch block removes
the slot again (non-dry-run) when the config lookup throws Not-Found. -/
def executePipeline (st : ExecState) (configs : List NamespaceConfig) (ns pipelineId : String)
    (params : String) (dryRun : Bool) (parentCallStack : Option (List String)) (newRunId : String) :
    ExecState × Except PipelineError (String × List String) :=
  let key := ns ++ ":" ++ pipelineId
  match dryRun, lookupSlot st.slots key with
  | false, some rid =>
    (st, .error ⟨"Pipeline " ++ key ++ " is already running (run: " ++ rid ++ ")", 409⟩)
  | _, _ =>
    let st1 := if dryRun then st else { st with slots := setSlot st.slots key newRunId }
    let revert := fun (s : ExecState) => if dryRun then s else { s with slots := deleteSlot s.slots key }
    match configs.find? (fun c => c.ns == ns) with
    | none => (revert st1, .error ⟨"Namespace not found: " ++ ns, 404⟩)
    | some nsConfig =>
      match nsConfig.pipelines.find? (fun p => p.id == pipelineId) with
      | none => (revert st1, .error ⟨"Pipeline not found: " ++ pipelineId ++ " in namespace " ++ ns, 404⟩)
      | some pipeline =>
        let runRow : RunRow := ⟨newRunId, ns, pipelineId, pipeline.name, .pending, params, dryRun, none⟩
        let stepRows := pipeline.steps.map (fun sd =>
          (⟨newRunId ++ "/" ++ sd.id, newRunId, sd.id, sd.name, sd.action, .pending⟩ : StepRow))
        let st2 := { st1 with runs := st1.runs ++ [runRow], steps := st1.steps ++ stepRows }
        let st3 := { st2 with events := st2.events ++ [("global", ExecEvent.runStarted newRunId ns pipelineId)] }
        let st4 := { st3 with runs := updateRunStatusRow st3.runs newRunId .running none,
                              events := st3.events ++ [(newRunId, ExecEvent.runStatusEv newRunId .running)] }
        (st4, .ok (newRunId, parentCallStack.getD [key]))

/-! ## The trigger-pipeline action
(`src/pipeline/actions/trigger-pipeline.ts`)

The part of the handler that runs up to and including the invocation of
the executor's trigger operation: read the inherited call stack
(`ctx.callStack ?? []`), compute the child key, fail with a
circular-dependency error naming the full chain when the key is already on
the stack, and otherwise call `executePipeline` with the extended stack.
The subsequent wait for the child's terminal status is not modelled (the
cycle-detection claim is about what happens before the executor is ever
invoked). -/

/-- The trigger-pipeline handler up to the child trigger call.  Returns
the (possibly mutated) executor state and either the thrown error message
or the child run id. -/
def triggerPipelineHandler (st : ExecState) (configs : List NamespaceConfig)
    (ctxCallStack : Option (List String)) (ns pipelineId : String) (params : String)
    (newRunId : String) : ExecState × Except String String :=
  let key := ns ++ ":" ++ pipelineId
  let callStack := ctxCallStack.getD []
  if callStack.contains key then
    (st, .error ("Circular pipeline dependency detected: " ++
      String.intercalate " -> " (callStack ++ [key])))
  else
    match executePipeline st configs ns pipelineId params false (some (callStack ++ [key])) newRunId with
    | (st', .error e) => (st', .error e.message)
    | (st', .ok (rid, _)) => (st', .ok rid)

/-! ## Crash recovery (`recoverStaleRuns` in `src/pipeline/executor.ts`
and `listRuns` / `updateRunStatus` / `markStaleSteps` in
`src/db/queries.ts`)

The database is modelled with opaque numeric run ids.  `listRuns` keeps
rows in the order the SQL query returns them (`ORDER BY started_at DESC`);
`Db.runs` is taken to be in that order, and `LIMIT ?` is the `take`. -/

/-- A `pipeline_runs` row as recovery sees it. -/
structure DbRun where
  id : Nat
  status : RunStatus
  error : Option String
deriving DecidableEq, Repr

/-- A `pipeline_steps` row as recovery sees it. -/
structure DbStep where
  run_id : Nat
  status : StepStatus
  error : Option String
deriving DecidableEq, Repr

/-- The persisted run and step tables. -/
structure Db where
  runs : List DbRun
  steps : List DbStep
deriving DecidableEq, Repr

/-- `db.listRuns({status, limit})`: the rows of the given status, in query
order, truncated by `LIMIT`. -/
def listRuns (db : Db) (status : RunStatus) (limit : Nat) : List DbRun :=
  (db.runs.filter (fun r => r.status == status)).take limit

/-- `db.updateRunStatus(id, status, error)`: `SET status = ?, error =
COALESCE(?, error) WHERE id = ?`. -/
def updateRunStatus (db : Db) (id : Nat) (status : RunStatus) (err : Option String) : Db :=
  { db with runs := db.runs.map (fun r =>
      if r.id = id then
        { r with status := status, error := match err with | some e => some e | none => r.error }
      else r) }

/-- The `CASE` of `markStaleSteps`: a still-`running` step becomes
`failed` with error "Interrupted", a still-`pending` step becomes
`skipped`; any other row is outside the `WHERE status IN ('running',
'pending')` filter and unchanged. -/
def staleFix (s : DbStep) : DbStep :=
  if s.status = .running then { s with status := .failed, error := some "Interrupted" }
  else if s.status = .pending then { s with status := .skipped }
  else s

/-- `db.markStaleSteps(runId)`. -/
def markStaleSteps (db : Db) (runId : Nat) : Db :=
  { db with steps := db.steps.map (fun s => if s.run_id = runId then staleFix s else s) }

/-- The body of the inner `for` loop of `recoverStaleRuns`. -/
def recoverOne (statusName : String) (db : Db) (r : DbRun) : Db :=
  markStaleSteps (updateRunStatus db r.id .failed (some ("Server crashed while " ++ statusName))) r.id

/-- One pass of `recoverStaleRuns` for one status value: query up to 100
runs of that status, then force each to `failed` and fix its stale
steps. -/
def recoverPass (db : Db) (status : RunStatus) (statusName : String) : Db :=
  (listRuns db status 100).foldl (recoverOne statusName) db

/-- `recoverStaleRuns()`: the pass for `"running"`, then the pass for
`"pending"` (the source iterates `["running", "pending"] as const`). -/
def recoverStaleRuns (db : Db) : Db :=
  recoverPass (recoverPass db .running "running") .pending "pending"

/-- A database holding 101 runs that are all still `running`. -/
def staleDb101 : Db :=
  ⟨(List.range 101).map (fun n => ⟨n, .running, none⟩), []⟩

/-- Marking helper: what one recovery pass does to a run row whose id is
among the recovered ids. -/
def failMark (ids : List Nat) (msg : String) (r : DbRun) : DbRun :=
  if r.id ∈ ids then { r with status := .failed, error := some msg } else r

/-- Marking helper: what one recovery pass does to a step row whose run id
is among the recovered ids. -/
def staleMark (ids : List Nat) (s : DbStep) : DbStep :=
  if s.run_id ∈ ids then staleFix s else s

/-- A small concrete database with one `running` run (id 1, with one
`running` and one `pending` step) and one `pending` run (id 2). -/
def staleWitnessDb : Db :=
  ⟨[⟨1, .running, none⟩, ⟨2, .pending, none⟩],
    [⟨1, .running, none⟩, ⟨1, .pending, none⟩, ⟨2, .pending, none⟩]⟩

/-! ## The polling helper (`pollUntil` in
`src/pipeline/actions/aws-utils.ts`)

`pollUntil` is modelled against schedules indexed by loop iteration: the
value `Date.now()` reads at iteration `i`'s loop condition (`now i`),
whether the abort signal is observed set there (`aborted i` — an abort
signal never resets, so the post-loop re-read sees the same value),
whether the cancellation-aware sleep of iteration `i` is interrupted
(`sleepAborted i`), and the result of `check(poll())` at iteration `i`
(`check i`).  The loop may run unboundedly, so the model carries fuel; the
theorems hold for every sufficient fuel.  The second component of the
result counts how many times `poll` was called. -/

/-- The `PollResult` union of `aws-utils.ts`:
"continue" | done-with-optional-output | remote-reported error. -/
inductive PollResult (O : Type)
| cont
| done (output : Option O)
| err (msg : String)
deriving DecidableEq, Repr

/-- How `pollUntil` finishes: resolves with the optional output, or
rejects with a thrown error's message. -/
inductive PollOutcome (O : Type)
| ok (output : Option O)
| thrown (msg : String)
deriving DecidableEq, Repr

/-- The `while` loop of `pollUntil`, from iteration `i` with `polls` poll
calls made so far: while the signal is unset and `Date.now()` is before
the deadline — sleep (rejecting "Aborted" if cancellation fires
mid-sleep), poll, check; "continue" loops, a done result resolves with its
output, a remote error is thrown.  On loop exit: throw "Aborted" if the
signal is set, else throw the supplied `timeoutMessage`. -/
def pollUntilAux {O : Type} (deadline : Nat) (now : Nat → Nat) (aborted : Nat → Bool)
    (sleepAborted : Nat → Bool) (check : Nat → PollResult O) (timeoutMessage : String) :
    Nat → Nat → Nat → Option (PollOutcome O × Nat)
| _, _, 0 => none
| i, polls, fuel + 1 =>
  if aborted i = false ∧ now i < deadline then
    if sleepAborted i then some (.thrown "Aborted", polls)
    else
      match check i with
      | .cont => pollUntilAux deadline now aborted sleepAborted check timeoutMessage (i + 1) (polls + 1) fuel
      | .done o => some (.ok o, polls + 1)
      | .err m => some (.thrown m, polls + 1)
  else
    if aborted i then some (.thrown "Aborted", polls)
    else some (.thrown timeoutMessage, polls)

/-- `pollUntil(opts)`: run the loop from the start. -/
def pollUntil {O : Type} (deadline : Nat) (now : Nat → Nat) (aborted : Nat → Bool)
    (sleepAborted : Nat → Bool) (check : Nat → PollResult O) (timeoutMessage : String)
    (fuel : Nat) : Option (PollOutcome O × Nat) :=
  pollUntilAux deadline now aborted sleepAborted check timeoutMessage 0 0 fuel

/-! ## Template resolver (`src/config/template.ts`)

Configuration values are JSON-like (`JValue`); run parameters are strings
or booleans (`ParamValues`).  The two regexes are modelled character-
exactly on `List Char`:

* `FULL_TEMPLATE_RE`, anchored and lazy, matches a string iff it starts
  with two opening braces, ends with two closing braces and has at least
  one character between; the anchors force the whole string to be
  consumed, so the captured group is exactly the middle
  (`fullTemplateGroup`).
* `TEMPLATE_RE` with the global flag replaces, left to right, each
  leftmost match of two opening braces followed by the shortest nonempty
  group that reaches the next two closing braces; scanning resumes after
  the match (`findTemplate` / `replaceTemplates`).  An opening-brace pair
  with no closing pair after it does not match and scanning moves on by
  one character, as the regex engine does. -/

/-- JSON-like configuration values.  JavaScript number formatting is
modelled for integers only (claims never interpolate numbers). -/
inductive JValue
| null
| str (s : String)
| num (n : Int)
| bool (b : Bool)
| arr (items : List JValue)
| obj (fields : List (String × JValue))
deriving BEq, Repr

/-- A run parameter value: `string | boolean`. -/
inductive ParamVal
| str (s : String)
| bool (b : Bool)
deriving DecidableEq, Repr

/-- The resolution context of `resolveConfig`: the run's parameter map
and the namespace's variable map. -/
structure ResolveCtx where
  params : List (String × ParamVal)
  vars : List (String × JValue)

/-- A parsed `TemplateRef`. -/
inductive TemplateRef
| varsRef (name : String)
| paramRef (name : String) (fallback : Option String)
deriving DecidableEq, Repr

/-- `expr.trim()` character-exactly on the underlying characters (the
built-in `String.trim` is extensionally the same but is defined by
well-founded recursion, which blocks definitional evaluation). -/
def trimChars (cs : List Char) : List Char :=
  ((cs.dropWhile Char.isWhitespace).reverse.dropWhile Char.isWhitespace).reverse

/-- `rest.indexOf("|")` plus the two `slice`s: the text before the first
pipe and everything after it. -/
def splitFirstPipe : List Char → Option (List Char × List Char)
| [] => none
| c :: rest =>
  if c = '|' then some ([], rest)
  else (splitFirstPipe rest).map (fun p => (c :: p.1, p.2))

/-- `parseTemplateRef(expr)`: trim, then dispatch on the "vars." /
"param." head; a `param` reference may carry a `|fallback`, split at the
first pipe with both sides trimmed. -/
def parseTemplateRef (expr : String) : Option TemplateRef :=
  let trimmed := trimChars expr.data
  if "vars.".data.isPrefixOf trimmed then
    some (.varsRef (String.mk (trimmed.drop 5)))
  else if "param.".data.isPrefixOf trimmed then
    let rest := trimmed.drop 6
    match splitFirstPipe rest with
    | none => some (.paramRef (String.mk rest) none)
    | some (n, fb) =>
      some (.paramRef (String.mk (trimChars n)) (some (String.mk (trimChars fb))))
  else none

/-- `String(boolean)`. -/
def boolString (b : Bool) : String := if b then "true" else "false"

/-- Inject a parameter value into the configuration value domain. -/
def ParamVal.toJValue : ParamVal → JValue
| .str s => .str s
| .bool b => .bool b

/-- `resolveExpression(expr, ctx)`: parse the reference; `vars.<name>`
errors when the key is absent; `param.<name>|<fallback>` yields the
fallback when the parameter is absent or the empty string;
`param.<name>` errors when absent. -/
def resolveExpression (expr : String) (ctx : ResolveCtx) : Except String JValue :=
  match parseTemplateRef expr with
  | none =>
    .error ("Invalid template expression: \x7b\x7b" ++ String.mk (trimChars expr.data) ++
      "\x7d\x7d — must start with \"vars.\" or \"param.\"")
  | some (.varsRef name) =>
    match ctx.vars.lookup name with
    | some v => .ok v
    | none => .error ("Undefined variable: vars." ++ name)
  | some (.paramRef name (some fb)) =>
    match ctx.params.lookup name with
    | some (.str "") => .ok (.str fb)
    | some v => .ok v.toJValue
    | none => .ok (.str fb)
  | some (.paramRef name none) =>
    match ctx.params.lookup name with
    | some v => .ok v.toJValue
    | none => .error ("Missing required parameter: " ++ name)

/-- The capture of `FULL_TEMPLATE_RE` (`^` two open braces, lazy group,
two close braces `$`): the string must begin with two opening braces, end
with two closing braces, and keep at least one character in between; the
anchors make the group the exact middle. -/
def fullTemplateGroup : List Char → Option (List Char)
| c1 :: c2 :: rest =>
  if c1 = '{' ∧ c2 = '{' then
    match rest.reverse with
    | d1 :: d2 :: g' =>
      if d1 = '}' ∧ d2 = '}' ∧ g' ≠ [] then some g'.reverse else none
    | _ => none
  else none
| _ => none

/-- `value.includes("\x7b\x7b")`. -/
def containsOpen : List Char → Bool
| c1 :: c2 :: rest => (c1 = '{' && c2 = '{') || containsOpen (c2 :: rest)
| _ => false
termination_by cs => cs.length
decreasing_by
all_goals simp

/-- Find the earliest pair of closing braces; returns the characters
before it and the characters after it. -/
def findClose : List Char → Option (List Char × List Char)
| c1 :: c2 :: rest =>
  if c1 = '}' ∧ c2 = '}' then some ([], rest)
  else (findClose (c2 :: rest)).map (fun p => (c1 :: p.1, p.2))
| _ => none
termination_by cs => cs.length
decreasing_by
all_goals simp

/-- The lazy group after an opening-brace pair: at least one character,
then up to the earliest closing-brace pair.  Returns (group, rest after
the close). -/
def findGroup : List Char → Option (List Char × List Char)
| [] => none
| c :: rest => (findClose rest).map (fun p => (c :: p.1, p.2))

/-- The leftmost match of `TEMPLATE_RE`: scan for an opening-brace pair
that is followed by a nonempty group and a closing-brace pair; if an
opening pair has no viable close, scanning resumes one character later.
Returns (text before the match, group, text after the match). -/
def findTemplate : List Char → Option (List Char × List Char × List Char)
| [] => none
| [_] => none
| c1 :: c2 :: rest =>
  if c1 = '{' ∧ c2 = '{' then
    match findGroup rest with
    | some (g, a) => some ([], g, a)
    | none => (findTemplate (c2 :: rest)).map (fun p => (c1 :: p.1, p.2.1, p.2.2))
  else (findTemplate (c2 :: rest)).map (fun p => (c1 :: p.1, p.2.1, p.2.2))
termination_by cs => cs.length
decreasing_by
all_goals simp

/-- `String(resolved)` for the scalar values that pass the interpolation
guards (string, integer number, boolean); other values are unreachable
behind the null/array/object checks of the replace callback. -/
def jsStringScalar : JValue → String
| .str s => s
| .num n => toString n
| .bool b => boolString b
| _ => ""

/-- Whether a value is a scalar the interpolation context accepts. -/
def isScalar : JValue → Bool
| .str _ => true
| .num _ => true
| .bool _ => true
| _ => false

/-- The replace callback of the string-interpolation pass, applied to one
match (captured group `g`, text `pre` before it): evaluate the captured
expression, throw on a null/array/object result (ambiguous
stringification), and otherwise stringify the scalar and splice it before
the interpolation of the rest of the string (`tail`).  The error branches
ignore `tail`, as the source's throw abandons the rest of the scan. -/
def replaceStep (ctx : ResolveCtx) (pre g : List Char) (tail : Except String (List Char)) : Except String (List Char) :=
  match resolveExpression (String.mk g) ctx with
  | .error e => .error e
  | .ok .null =>
    .error ("Template \x7b\x7b" ++ String.mk (trimChars g) ++
      "\x7d\x7d resolved to null in a string interpolation context")
  | .ok (.arr _) =>
    .error ("Template \x7b\x7b" ++ String.mk (trimChars g) ++
      "\x7d\x7d resolved to an array in a string interpolation context — use a full-string template instead")
  | .ok (.obj _) =>
    .error ("Template \x7b\x7b" ++ String.mk (trimChars g) ++
      "\x7d\x7d resolved to an object in a string interpolation context — use a full-string template instead")
  | .ok v => tail.map (fun tl => pre ++ (jsStringScalar v).data ++ tl)

/-- The string-interpolation pass of the string branch of
`resolveConfig`: `value.replace(TEMPLATE_RE, cb)`.  Matches are replaced
left to right; scanning resumes after each replaced match; a string with
no (further) match is returned as is.  The recursion is bounded by a fuel
argument: every match consumes at least four characters
(`findTemplate_suffix_lt`), so fuel equal to the string's length — what
the wrapper below supplies — is always sufficient and the zero-fuel
branch is unreachable. -/
def replaceTemplatesAux (ctx : ResolveCtx) : Nat → List Char → Except String (List Char)
| 0, cs => .ok cs
| fuel + 1, cs =>
  match findTemplate cs with
  | none => .ok cs
  | some (pre, g, suffix) => replaceStep ctx pre g (replaceTemplatesAux ctx fuel suffix)

/-- `value.replace(TEMPLATE_RE, cb)` on the whole string. -/
def replaceTemplates (ctx : ResolveCtx) (cs : List Char) : Except String (List Char) :=
  replaceTemplatesAux ctx cs.length cs

/-- The string branch of `resolveConfig`: a full-string template resolves
to the referenced value's native type; otherwise, a string containing an
opening-brace pair goes through interpolation; otherwise the string is
returned unchanged. -/
def resolveString (ctx : ResolveCtx) (s : String) : Except String JValue :=
  match fullTemplateGroup s.data with
  | some g => resolveExpression (String.mk g) ctx
  | none =>
    if containsOpen s.data then
      (replaceTemplates ctx s.data).map (fun cs => JValue.str (String.mk cs))
    else .ok (.str s)

/-- JavaScript property-key coercion for the `$switch` value
(`obj.$switch as string` used as `ctx.params[paramName]`).  Only string
keys occur in real configs; non-string keys are coerced approximately
(arrays are not join-stringified element-wise here). -/
def jsPropertyKey : JValue → String
| .str s => s
| .bool b => boolString b
| .num n => toString n
| .null => "null"
| .arr _ => ""
| .obj _ => "[object Object]"

/-- `resolveConfig(value, ctx, depth)` with the depth budget carried as
fuel (`fuel = 51 - depth`; the source errors when `depth > 50`, i.e. at
fuel 0).  Null/undefined pass through; strings go through the string
branch; arrays and plain objects resolve element-wise and field-wise at depth + 1;
an object with a `$switch` key selects `cases[String(params[name] ?? "")]`
— a null or missing case falls back to the `default` subtree, a missing
selection is an error — and resolves the selected subtree at depth + 1;
other scalars pass through. -/
def resolveConfigAux (ctx : ResolveCtx) : Nat → JValue → Except String JValue
| 0, _ => .error "Template resolution exceeded maximum depth of 50 — possible circular $switch"
| _ + 1, .null => .ok .null
| _ + 1, .str s => resolveString ctx s
| fuel + 1, .arr items => (items.mapM (resolveConfigAux ctx fuel)).map .arr
| fuel + 1, .obj fields =>
  match fields.lookup "$switch" with
  | some sw =>
    let paramName := jsPropertyKey sw
    let paramValue :=
      match ctx.params.lookup paramName with
      | some (.str s) => s
      | some (.bool b) => boolString b
      | none => ""
    let cs :=
      match fields.lookup "cases" with
      | some (.obj cs) => cs
      | _ => []
    let selected : Option JValue :=
      match cs.lookup paramValue with
      | some .null => fields.lookup "default"
      | none => fields.lookup "default"
      | some v => some v
    match selected with
    | none => .error ("$switch on \"" ++ paramName ++ "\": no case for \"" ++ paramValue ++ "\" and no default")
    | some sel => resolveConfigAux ctx fuel sel
  | none =>
    (fields.mapM (fun kv => (resolveConfigAux ctx fuel kv.2).map (fun v' => (kv.1, v')))).map .obj
| _ + 1, v => .ok v

/-- `resolveConfig(value, ctx)` (top-level call at depth 0). -/
def resolveConfig (v : JValue) (ctx : ResolveCtx) : Except String JValue :=
  resolveConfigAux ctx 51 v

/-- The raw characters of a list of (expression, value, following text)
segments: two opening braces, the expression, two closing braces, the
text, then the remaining segments. -/
def segsInput : List (List Char × JValue × List Char) → List Char
| [] => []
| (e, _, t) :: rest => '{' :: '{' :: (e ++ '}' :: '}' :: (t ++ segsInput rest))

/-- The interpolated characters of the same segments: each expression
replaced by `String(value)`. -/
def segsOutput : List (List Char × JValue × List Char) → List Char
| [] => []
| (_, v, t) :: rest => (jsStringScalar v).data ++ t ++ segsOutput rest

/-! ## Theorems -/

theorem deliverAll_ok (call : Nat → Except String Unit) (ls : List Nat) :
    ∃ ds, deliverAll call ls = .ok ds ∧ ds.map Prod.fst = ls := by
  induction ls with
  | nil => exact ⟨[], rfl, rfl⟩
  | cons fn rest ih =>
    obtain ⟨ds, hds, hmap⟩ := ih
    refine ⟨(fn, ?_) :: ds, ?_, ?_⟩
    · exact match call fn with
      | .ok _ => .delivered
      | .error e => .threwCaught e
    · simp [deliverAll, hds, Except.map]
    · simp [hmap]

/-- C10.  `publish` always returns normally: whatever each subscriber's
callback does (including throwing), the loop is exception-free, every
listener of the topic is invoked exactly once, in registration order
(even those after a throwing one), and a topic with no listener entry is
a no-op. -/
theorem publish_total_and_delivers_all (bus : Bus) (topic : String) (call : Nat → Except String Unit) :
    ∃ ds, publish bus topic call = .ok ds ∧
      ds.map Prod.fst =
        (if topic = "global" then some bus.globalListeners
          else bus.topicListeners.lookup topic).getD [] := by
  unfold publish
  by_cases hg : topic = "global"
  · simpa [hg] using deliverAll_ok call bus.globalListeners
  · cases hlk : bus.topicListeners.lookup topic with
    | none => exact ⟨[], by simp [hg, hlk], by simp [hg, hlk]⟩
    | some ls =>
      obtain ⟨ds, hds, hmap⟩ := deliverAll_ok call ls
      exact ⟨ds, by simp [hg, hlk, hds], by simp [hg, hlk, hmap]⟩

theorem mem_range'_bounds {m s n : Nat} (h : m ∈ List.range' s n) : s ≤ m ∧ m < s + n := by
  induction n generalizing s with
  | zero => simp [List.range'] at h
  | succ n ih =>
    rw [List.range'_succ] at h
    rcases List.mem_cons.mp h with h' | h'
    · omega
    · have := ih h'
      omega

theorem runStepsAux_ok_front (p : Nat) (l : List LoopEntry) (fa : Bool) :
    ∀ i, (runStepsAux i (List.replicate p (.exec .ok) ++ l) fa).steps =
        List.replicate p (StepStatus.success, (none : Option String)) ++ (runStepsAux (i + p) l fa).steps
      ∧ (runStepsAux i (List.replicate p (.exec .ok) ++ l) fa).runStatus = (runStepsAux (i + p) l fa).runStatus
      ∧ (runStepsAux i (List.replicate p (.exec .ok) ++ l) fa).runError = (runStepsAux (i + p) l fa).runError
      ∧ (runStepsAux i (List.replicate p (.exec .ok) ++ l) fa).invoked =
          List.range' i p ++ (runStepsAux (i + p) l fa).invoked := by
  induction p with
  | zero => intro i; simp [List.range']
  | succ p ih =>
    intro i
    obtain ⟨h1, h2, h3, h4⟩ := ih (i + 1)
    have harith : i + 1 + p = i + (p + 1) := by omega
    rw [harith] at h1 h2 h3 h4
    rw [List.replicate_succ, List.cons_append]
    refine ⟨?_, ?_, ?_, ?_⟩
    · simp [runStepsAux, executeStep, h1, List.replicate_succ]
    · simp [runStepsAux, executeStep, h2]
    · simp [runStepsAux, executeStep, h3]
    · simp [runStepsAux, executeStep, h4, List.range'_succ]

/-- C2.  A run that is never cancelled and whose step `k = p + 1`
(1-based) fails after `p` successful steps persists: steps `1..p`
`success`, step `k` `failed` with the handler's error text, every later
step `skipped`, and the run `failed` with that same error text — whatever
the behaviors of the unreached later steps would have been. -/
theorem run_failure_at_step_k (p : Nat) (m : String) (rest : List LoopEntry) (fa : Bool) :
    (runSteps (List.replicate p (.exec .ok) ++ .exec (.fails m) :: rest) fa).steps =
        List.replicate p (StepStatus.success, (none : Option String)) ++
          (StepStatus.failed, some m) :: List.replicate rest.length (StepStatus.skipped, none)
      ∧ (runSteps (List.replicate p (.exec .ok) ++ .exec (.fails m) :: rest) fa).runStatus = .failed
      ∧ (runSteps (List.replicate p (.exec .ok) ++ .exec (.fails m) :: rest) fa).runError = some m := by
  obtain ⟨h1, h2, h3, _⟩ := runStepsAux_ok_front p (.exec (.fails m) :: rest) fa 1
  unfold runSteps
  rw [h1, h2, h3]
  simp [runStepsAux, executeStep]

theorem runStepsAux_all_ok (q : Nat) (fa : Bool) (i : Nat) :
    (runStepsAux i (List.replicate q (.exec .ok)) fa).steps = List.replicate q (StepStatus.success, (none : Option String))
      ∧ (runStepsAux i (List.replicate q (.exec .ok)) fa).runStatus = (if fa then .cancelled else .success)
      ∧ (runStepsAux i (List.replicate q (.exec .ok)) fa).runError = none
      ∧ (runStepsAux i (List.replicate q (.exec .ok)) fa).invoked = List.range' i q := by
  have h := runStepsAux_ok_front q ([] : List LoopEntry) fa i
  simpa [runStepsAux] using h

/-- C4.  A step whose action name is not registered (here at 1-based
position `p + 1`) is persisted `skipped`, its handler is never invoked,
the following steps still run normally, and the run does not fail. -/
theorem unrecognized_action_soft_skip (p q : Nat) (fa : Bool) :
    (runSteps (List.replicate p (.exec .ok) ++ .exec .unregistered :: List.replicate q (.exec .ok)) fa).steps =
        List.replicate p (StepStatus.success, (none : Option String)) ++
          (StepStatus.skipped, none) :: List.replicate q (StepStatus.success, none)
      ∧ (p + 1) ∉ (runSteps (List.replicate p (.exec .ok) ++ .exec .unregistered :: List.replicate q (.exec .ok)) fa).invoked
      ∧ (runSteps (List.replicate p (.exec .ok) ++ .exec .unregistered :: List.replicate q (.exec .ok)) fa).runStatus ≠ .failed := by
  obtain ⟨h1, h2, _, h4⟩ := runStepsAux_ok_front p (.exec .unregistered :: List.replicate q (.exec .ok)) fa 1
  obtain ⟨g1, g2, _, g4⟩ := runStepsAux_all_ok q fa (1 + p + 1)
  unfold runSteps
  refine ⟨?_, ?_, ?_⟩
  · rw [h1]
    simp only [runStepsAux, executeStep]
    rw [g1]
  · rw [h4]
    intro hmem
    simp only [runStepsAux, executeStep] at hmem
    simp [g4, List.mem_append] at hmem
    omega
  · rw [h2]
    simp only [runStepsAux, executeStep]
    rw [g2]
    cases fa <;> simp

theorem runStepsAux_cont_front (pre : List LoopEntry)
    (h : ∀ e ∈ pre, e = .exec .ok ∨ e = .exec .unregistered) (l : List LoopEntry) (fa : Bool) :
    ∀ i, ((runStepsAux i (pre ++ l) fa).steps).drop pre.length = (runStepsAux (i + pre.length) l fa).steps
      ∧ (runStepsAux i (pre ++ l) fa).runStatus = (runStepsAux (i + pre.length) l fa).runStatus
      ∧ (runStepsAux i (pre ++ l) fa).runError = (runStepsAux (i + pre.length) l fa).runError := by
  induction pre with
  | nil => intro i; simp
  | cons e pre' ih =>
    intro i
    have he := h e (by simp)
    have h' : ∀ x ∈ pre', x = .exec .ok ∨ x = .exec .unregistered := fun x hx => h x (by simp [hx])
    obtain ⟨g1, g2, g3⟩ := ih h' (i + 1)
    have harith : i + 1 + pre'.length = i + (pre'.length + 1) := by omega
    rw [harith] at g1 g2 g3
    rcases he with he | he <;>
      subst he <;>
      refine ⟨?_, ?_, ?_⟩ <;>
      simp [runStepsAux, executeStep, g1, g2, g3, List.length_cons]

/-- C3.  When the run's abort signal is set while a step's handler is in
flight and that handler throws (behavior `cancelledThrow`), after any
prefix of steps that continued normally, the in-flight step is persisted
`skipped` — never `failed` — every later step is persisted `skipped`, the
run finishes `cancelled`, and no error text is recorded on the run. -/
theorem cancelled_step_skipped_not_failed (pre : List LoopEntry) (m : String)
    (rest : List LoopEntry) (fa : Bool)
    (h : ∀ e ∈ pre, e = .exec .ok ∨ e = .exec .unregistered) :
    ((runSteps (pre ++ .exec (.cancelledThrow m) :: rest) fa).steps).drop pre.length =
        (StepStatus.skipped, (none : Option String)) :: List.replicate rest.length (StepStatus.skipped, none)
      ∧ (runSteps (pre ++ .exec (.cancelledThrow m) :: rest) fa).runStatus = .cancelled
      ∧ (runSteps (pre ++ .exec (.cancelledThrow m) :: rest) fa).runError = none := by
  obtain ⟨g1, g2, g3⟩ := runStepsAux_cont_front pre h (.exec (.cancelledThrow m) :: rest) fa 1
  unfold runSteps
  rw [g1, g2, g3]
  simp [runStepsAux, executeStep]

/-- Witness for C3: a concrete two-step run whose second step's handler
throws while the abort signal is set. -/
theorem cancelled_step_skipped_not_failed_witness :
    ((runSteps ([.exec .ok] ++ .exec (.cancelledThrow "poll aborted") :: [.exec .ok]) false).steps).drop 1 =
        (StepStatus.skipped, (none : Option String)) :: List.replicate 1 (StepStatus.skipped, none)
      ∧ (runSteps ([.exec .ok] ++ .exec (.cancelledThrow "poll aborted") :: [.exec .ok]) false).runStatus = .cancelled
      ∧ (runSteps ([.exec .ok] ++ .exec (.cancelledThrow "poll aborted") :: [.exec .ok]) false).runError = none := by
  simpa using cancelled_step_skipped_not_failed [.exec .ok] "poll aborted" [.exec .ok] false
    (by intro e he; simp at he; simp [he])

theorem runStepsAux_events_ordering (entries : List LoopEntry) (fa : Bool) :
    ∀ i a b, i ≤ a → a < b → Ev.step b .running ∈ (runStepsAux i entries fa).events →
      ∃ s, (s = StepStatus.success ∨ s = StepStatus.failed ∨ s = StepStatus.skipped) ∧
        List.Sublist [Ev.step a s, Ev.step b .running] (runStepsAux i entries fa).events := by
  induction entries with
  | nil =>
    intro i a b _ _ hmem
    simp [runStepsAux] at hmem
  | cons e rest ih =>
    intro i a b hia hab hmem
    cases e with
    | abortSeen =>
      simp [runStepsAux] at hmem
    | exec b' =>
      cases b' with
      | ok =>
        simp [runStepsAux, executeStep] at hmem
        rcases hmem with hj | hmem'
        · omega
        · rcases Nat.lt_or_ge i a with hlt | hge
          · obtain ⟨s, hs, hsub⟩ := ih (i + 1) a b hlt hab hmem'
            exact ⟨s, hs, by simpa [runStepsAux, executeStep] using (hsub.cons _).cons _⟩
          · have heq : a = i := by omega
            subst heq
            refine ⟨.success, by simp, ?_⟩
            simp only [runStepsAux, executeStep, List.cons_append, List.nil_append]
            exact List.Sublist.cons _ (List.Sublist.cons₂ _ (List.singleton_sublist.mpr hmem'))
      | unregistered =>
        simp [runStepsAux, executeStep] at hmem
        rcases hmem with hj | hmem'
        · omega
        · rcases Nat.lt_or_ge i a with hlt | hge
          · obtain ⟨s, hs, hsub⟩ := ih (i + 1) a b hlt hab hmem'
            exact ⟨s, hs, by simpa [runStepsAux, executeStep] using (hsub.cons _).cons _⟩
          · have heq : a = i := by omega
            subst heq
            refine ⟨.skipped, by simp, ?_⟩
            simp only [runStepsAux, executeStep, List.cons_append, List.nil_append]
            exact List.Sublist.cons _ (List.Sublist.cons₂ _ (List.singleton_sublist.mpr hmem'))
      | fails m =>
        simp [runStepsAux, executeStep] at hmem
        omega
      | cancelledThrow m =>
        simp [runStepsAux, executeStep] at hmem
        omega

/-- C9.  Status events for a run are published on the run's topic in step
order: a 3-step successful run publishes exactly
running(1), success(1), running(2), success(2), running(3), success(3),
run success, in that order; and in every run, a later step's running
event is only ever published after a terminal (success, failed or
skipped) event of each earlier step. -/
theorem run_events_ordered :
    (runSteps [.exec .ok, .exec .ok, .exec .ok] false).events =
        [Ev.step 1 .running, Ev.step 1 .success, Ev.step 2 .running, Ev.step 2 .success,
          Ev.step 3 .running, Ev.step 3 .success, Ev.run .success]
      ∧ ∀ (entries : List LoopEntry) (fa : Bool) (a b : Nat), 1 ≤ a → a < b →
          Ev.step b .running ∈ (runSteps entries fa).events →
          ∃ s, (s = StepStatus.success ∨ s = StepStatus.failed ∨ s = StepStatus.skipped) ∧
            List.Sublist [Ev.step a s, Ev.step b .running] (runSteps entries fa).events := by
  constructor
  · rfl
  · intro entries fa a b ha hab hmem
    exact runStepsAux_events_ordering entries fa 1 a b ha hab hmem

/-- Witness for C9: in a concrete 2-step successful run, step 2's running
event is preceded by a terminal event of step 1. -/
theorem run_events_ordered_witness :
    ∃ s, (s = StepStatus.success ∨ s = StepStatus.failed ∨ s = StepStatus.skipped) ∧
      List.Sublist [Ev.step 1 s, Ev.step 2 .running] (runSteps [.exec .ok, .exec .ok] false).events :=
  run_events_ordered.2 [.exec .ok, .exec .ok] false 1 2 (by decide) (by decide) (by decide)

/-- C1.  Triggering with `dryRun = false` while a slot for
`namespace:pipelineId` holds an active run throws a 409 Conflict whose
message carries the existing run's id, and mutates nothing: the slot map,
run table, step table and event log are exactly those before the call. -/
theorem trigger_conflict_no_mutation (st : ExecState) (configs : List NamespaceConfig)
    (ns pipelineId params newRunId rid : String) (pcs : Option (List String))
    (h : lookupSlot st.slots (ns ++ ":" ++ pipelineId) = some rid) :
    executePipeline st configs ns pipelineId params false pcs newRunId =
        (st, .error ⟨"Pipeline " ++ (ns ++ ":" ++ pipelineId) ++ " is already running (run: " ++ rid ++ ")", 409⟩)
      ∧ (executePipeline st configs ns pipelineId params false pcs newRunId).1.slots = st.slots
      ∧ (executePipeline st configs ns pipelineId params false pcs newRunId).1.runs = st.runs
      ∧ (executePipeline st configs ns pipelineId params false pcs newRunId).1.steps = st.steps
      ∧ (executePipeline st configs ns pipelineId params false pcs newRunId).1.events = st.events
      ∧ ∃ pre post,
          ("Pipeline " ++ (ns ++ ":" ++ pipelineId) ++ " is already running (run: " ++ rid ++ ")")
            = pre ++ rid ++ post := by
  have hred : executePipeline st configs ns pipelineId params false pcs newRunId =
      (st, .error ⟨"Pipeline " ++ (ns ++ ":" ++ pipelineId) ++ " is already running (run: " ++ rid ++ ")", 409⟩) := by
    unfold executePipeline
    simp only [h]
  refine ⟨hred, ?_, ?_, ?_, ?_, ?_⟩
  · rw [hred]
  · rw [hred]
  · rw [hred]
  · rw [hred]
  · exact ⟨"Pipeline " ++ (ns ++ ":" ++ pipelineId) ++ " is already running (run: ", ")", by
      simp [String.append_assoc]⟩

/-- Witness for C1: a concrete state with an active slot for `ns:p1`. -/
theorem trigger_conflict_no_mutation_witness :
    executePipeline ⟨[("ns:p1", "r0")], [], [], []⟩ [] "ns" "p1" "\x7b\x7d" false none "r1" =
        (⟨[("ns:p1", "r0")], [], [], []⟩,
          .error ⟨"Pipeline " ++ ("ns" ++ ":" ++ "p1") ++ " is already running (run: " ++ "r0" ++ ")", 409⟩)
      ∧ ∃ pre post,
          ("Pipeline " ++ ("ns" ++ ":" ++ "p1") ++ " is already running (run: " ++ "r0" ++ ")")
            = pre ++ "r0" ++ post := by
  have h := trigger_conflict_no_mutation ⟨[("ns:p1", "r0")], [], [], []⟩ [] "ns" "p1" "\x7b\x7d" "r1" "r0" none (by decide)
  exact ⟨h.1, h.2.2.2.2.2⟩

/-- C7.  When the child key is already on the inherited call stack, the
trigger-pipeline handler throws a circular-dependency error naming the
full chain, and the executor is never invoked: the slot map, run table,
step table and event log are exactly those before the call. -/
theorem trigger_pipeline_circular (st : ExecState) (configs : List NamespaceConfig)
    (callStack : List String) (ns pipelineId params newRunId : String)
    (h : (ns ++ ":" ++ pipelineId) ∈ callStack) :
    triggerPipelineHandler st configs (some callStack) ns pipelineId params newRunId =
        (st, .error ("Circular pipeline dependency detected: " ++
          String.intercalate " -> " (callStack ++ [ns ++ ":" ++ pipelineId])))
      ∧ (triggerPipelineHandler st configs (some callStack) ns pipelineId params newRunId).1.slots = st.slots
      ∧ (triggerPipelineHandler st configs (some callStack) ns pipelineId params newRunId).1.runs = st.runs
      ∧ (triggerPipelineHandler st configs (some callStack) ns pipelineId params newRunId).1.steps = st.steps
      ∧ (triggerPipelineHandler st configs (some callStack) ns pipelineId params newRunId).1.events = st.events := by
  have hc : callStack.contains (ns ++ ":" ++ pipelineId) = true := List.elem_eq_true_of_mem h
  have hred : triggerPipelineHandler st configs (some callStack) ns pipelineId params newRunId =
      (st, .error ("Circular pipeline dependency detected: " ++
        String.intercalate " -> " (callStack ++ [ns ++ ":" ++ pipelineId]))) := by
    unfold triggerPipelineHandler
    simp only [Option.getD, hc, if_true]
  exact ⟨hred, by rw [hred], by rw [hred], by rw [hred], by rw [hred]⟩

/-- Witness for C7: a pipeline `ns:p1` whose step triggers `ns:p1` itself.
The executor seeds the root run's call stack with `["ns:p1"]` (the
`parentCallStack ?? [key]` default), so the handler of the self-triggering
step sees its own key on the stack and fails before any inner trigger. -/
theorem trigger_pipeline_circular_witness :
    triggerPipelineHandler ⟨[("ns:p1", "r1")], [], [], []⟩
        [⟨"ns", [⟨"p1", "Pipe 1", [⟨"s1", "self", "trigger-pipeline"⟩], none⟩]⟩]
        (some ["ns:p1"]) "ns" "p1" "\x7b\x7d" "r2" =
      (⟨[("ns:p1", "r1")], [], [], []⟩,
        .error "Circular pipeline dependency detected: ns:p1 -> ns:p1") := by
  have h := (trigger_pipeline_circular ⟨[("ns:p1", "r1")], [], [], []⟩
    [⟨"ns", [⟨"p1", "Pipe 1", [⟨"s1", "self", "trigger-pipeline"⟩], none⟩]⟩]
    ["ns:p1"] "ns" "p1" "\x7b\x7d" "r2" (by decide)).1
  simpa using h

set_option maxRecDepth 100000 in
/-- Counterexample to C5 as stated: `recoverStaleRuns` queries with
`limit: 100`, so with 101 persisted `running` runs the 101st is left
`running` — recovery is not unlimited. -/
theorem recoverStaleRuns_limit_counterexample :
    (⟨100, .running, none⟩ : DbRun) ∈ staleDb101.runs
      ∧ (⟨100, .running, none⟩ : DbRun) ∈ (recoverStaleRuns staleDb101).runs := by
  constructor
  · decide
  · decide

theorem staleFix_run_id (s : DbStep) : (staleFix s).run_id = s.run_id := by
  unfold staleFix
  split_ifs <;> rfl

theorem staleFix_idem (s : DbStep) : staleFix (staleFix s) = staleFix s := by
  by_cases h1 : s.status = .running
  · simp [staleFix, h1]
  · by_cases h2 : s.status = .pending
    · simp [staleFix, h1, h2]
    · simp [staleFix, h1, h2]

theorem failMark_comp (ids : List Nat) (msg : String) (rid : Nat) (r : DbRun) :
    failMark ids msg (failMark [rid] msg r) = failMark (rid :: ids) msg r := by
  by_cases h1 : r.id = rid
  · by_cases h2 : r.id ∈ ids <;> simp [failMark, h1, h2]
  · by_cases h2 : r.id ∈ ids <;> simp [failMark, h1, h2]

theorem staleMark_comp (ids : List Nat) (rid : Nat) (s : DbStep) :
    staleMark ids (staleMark [rid] s) = staleMark (rid :: ids) s := by
  by_cases h1 : s.run_id = rid
  · by_cases h2 : s.run_id ∈ ids <;> simp [staleMark, h1, h2, staleFix_run_id, staleFix_idem]
  · by_cases h2 : s.run_id ∈ ids <;> simp [staleMark, h1, h2]

theorem recoverOne_eq (msg : String) (d : Db) (r : DbRun) :
    recoverOne msg d r =
      ⟨d.runs.map (failMark [r.id] ("Server crashed while " ++ msg)), d.steps.map (staleMark [r.id])⟩ := by
  cases d with
  | mk runs steps =>
    unfold recoverOne markStaleSteps updateRunStatus
    refine congrArg₂ Db.mk ?_ ?_
    · exact List.map_congr_left (fun a _ => by simp [failMark])
    · exact List.map_congr_left (fun a _ => by simp [staleMark])

theorem foldl_recoverOne (msg : String) (L : List DbRun) : ∀ d : Db,
    L.foldl (recoverOne msg) d =
      ⟨d.runs.map (failMark (L.map (fun r => r.id)) ("Server crashed while " ++ msg)),
        d.steps.map (staleMark (L.map (fun r => r.id)))⟩ := by
  induction L with
  | nil =>
    intro d
    cases d with
    | mk runs steps =>
      refine congrArg₂ Db.mk ?_ ?_
      · have hp : ∀ a ∈ runs, failMark [] ("Server crashed while " ++ msg) a = id a :=
          fun a _ => by simp [failMark]
        exact ((List.map_congr_left hp).trans (List.map_id runs)).symm
      · have hp : ∀ a ∈ steps, staleMark [] a = id a := fun a _ => by simp [staleMark]
        exact ((List.map_congr_left hp).trans (List.map_id steps)).symm
  | cons r L ih =>
    intro d
    rw [List.foldl_cons, ih, recoverOne_eq]
    cases d with
    | mk runs steps =>
      simp only [List.map_map, List.map_cons]
      refine congrArg₂ Db.mk ?_ ?_
      · exact List.map_congr_left (fun a _ => failMark_comp _ ("Server crashed while " ++ msg) r.id a)
      · exact List.map_congr_left (fun a _ => staleMark_comp _ r.id a)

theorem recoverPass_eq (db : Db) (status : RunStatus) (msg : String) :
    recoverPass db status msg =
      ⟨db.runs.map (failMark ((listRuns db status 100).map (fun r => r.id)) ("Server crashed while " ++ msg)),
        db.steps.map (staleMark ((listRuns db status 100).map (fun r => r.id)))⟩ :=
  foldl_recoverOne msg (listRuns db status 100) db

theorem filter_map_failMark (l : List DbRun) (ids : List Nat) (msg : String) (status : RunStatus)
    (hstatus : status ≠ .failed)
    (h : ∀ r ∈ l, r.status = status → r.id ∉ ids) :
    (l.map (failMark ids msg)).filter (fun r => r.status == status) =
      l.filter (fun r => r.status == status) := by
  induction l with
  | nil => rfl
  | cons r l ih =>
    have h' : ∀ x ∈ l, x.status = status → x.id ∉ ids :=
      fun x hx => h x (List.mem_cons_of_mem _ hx)
    rw [List.map_cons]
    by_cases hid : r.id ∈ ids
    · have hrs : ¬ r.status = status := fun hs => (h r (by simp) hs) hid
      simp [List.filter_cons, failMark, hid, hrs, ih h', beq_iff_eq, Ne.symm hstatus]
    · simp [List.filter_cons, failMark, hid, ih h']

theorem id_not_in_status_ids (runs : List DbRun) (hnd : (runs.map (fun r => r.id)).Nodup)
    {r : DbRun} (hr : r ∈ runs) {status : RunStatus} (hne : ¬ r.status = status) :
    r.id ∉ (runs.filter (fun x => x.status == status)).map (fun x => x.id) := by
  intro hmem
  obtain ⟨p, hpfilter, hpid⟩ := List.mem_map.mp hmem
  obtain ⟨hpl, hps⟩ := List.mem_filter.mp hpfilter
  have hpr : p = r := List.inj_on_of_nodup_map hnd hpl hr hpid
  subst hpr
  exact hne (by simpa using hps)

/-- C5 as amended.  `recoverStaleRuns` queries at most 100 runs per stale
status; whenever at most 100 runs are in each of `running` and `pending`
(and run ids are unique), every stale run is forced to `failed` with the
"Server crashed while X" reason, its still-`running` steps are forced to
`failed` (error "Interrupted") and its still-`pending` steps to
`skipped`. -/
theorem recoverStaleRuns_recovers_up_to_limit (db : Db)
    (hnd : (db.runs.map (fun r => r.id)).Nodup)
    (hrun : (db.runs.filter (fun x => x.status == RunStatus.running)).length ≤ 100)
    (hpend : (db.runs.filter (fun x => x.status == RunStatus.pending)).length ≤ 100) :
    ∀ r ∈ db.runs,
      (r.status = .running →
        { r with status := .failed, error := some "Server crashed while running" } ∈ (recoverStaleRuns db).runs)
      ∧ (r.status = .pending →
        { r with status := .failed, error := some "Server crashed while pending" } ∈ (recoverStaleRuns db).runs)
      ∧ (∀ s ∈ db.steps, s.run_id = r.id → (r.status = .running ∨ r.status = .pending) →
          (s.status = .running →
            { s with status := .failed, error := some "Interrupted" } ∈ (recoverStaleRuns db).steps)
          ∧ (s.status = .pending →
            { s with status := .skipped } ∈ (recoverStaleRuns db).steps)) := by
  intro r hr
  have hR : listRuns db RunStatus.running 100 = db.runs.filter (fun x => x.status == RunStatus.running) := by
    unfold listRuns
    exact List.take_of_length_le hrun
  have happR : ("Server crashed while " ++ "running" : String) = "Server crashed while running" := rfl
  have happP : ("Server crashed while " ++ "pending" : String) = "Server crashed while pending" := rfl
  have hpass1 : recoverPass db .running "running" =
      ⟨db.runs.map (failMark ((db.runs.filter (fun x => x.status == RunStatus.running)).map (fun x => x.id)) "Server crashed while running"),
        db.steps.map (staleMark ((db.runs.filter (fun x => x.status == RunStatus.running)).map (fun x => x.id)))⟩ := by
    rw [recoverPass_eq, hR, happR]
  have hfilter2 : ((db.runs.map (failMark ((db.runs.filter (fun x => x.status == RunStatus.running)).map (fun x => x.id)) "Server crashed while running")).filter (fun x => x.status == RunStatus.pending)) =
      db.runs.filter (fun x => x.status == RunStatus.pending) := by
    apply filter_map_failMark
    · decide
    · intro x hx hxs
      exact id_not_in_status_ids db.runs hnd hx (by simp [hxs])
  have hP : listRuns (recoverPass db .running "running") RunStatus.pending 100 =
      db.runs.filter (fun x => x.status == RunStatus.pending) := by
    rw [hpass1]
    show ((db.runs.map (failMark ((db.runs.filter (fun x => x.status == RunStatus.running)).map (fun x => x.id)) "Server crashed while running")).filter (fun x => x.status == RunStatus.pending)).take 100 = _
    rw [hfilter2]
    exact List.take_of_length_le hpend
  have hfinal : recoverStaleRuns db =
      ⟨(db.runs.map (failMark ((db.runs.filter (fun x => x.status == RunStatus.running)).map (fun x => x.id)) "Server crashed while running")).map
          (failMark ((db.runs.filter (fun x => x.status == RunStatus.pending)).map (fun x => x.id)) "Server crashed while pending"),
        (db.steps.map (staleMark ((db.runs.filter (fun x => x.status == RunStatus.running)).map (fun x => x.id)))).map
          (staleMark ((db.runs.filter (fun x => x.status == RunStatus.pending)).map (fun x => x.id)))⟩ := by
    unfold recoverStaleRuns
    rw [recoverPass_eq, hP, happP, hpass1]
  have hfinalRuns : (recoverStaleRuns db).runs =
      (db.runs.map (failMark ((db.runs.filter (fun x => x.status == RunStatus.running)).map (fun x => x.id)) "Server crashed while running")).map
        (failMark ((db.runs.filter (fun x => x.status == RunStatus.pending)).map (fun x => x.id)) "Server crashed while pending") := by
    rw [hfinal]
  have hfinalSteps : (recoverStaleRuns db).steps =
      (db.steps.map (staleMark ((db.runs.filter (fun x => x.status == RunStatus.running)).map (fun x => x.id)))).map
        (staleMark ((db.runs.filter (fun x => x.status == RunStatus.pending)).map (fun x => x.id))) := by
    rw [hfinal]
  refine ⟨?_, ?_, ?_⟩
  · intro hrs
    have hidR : r.id ∈ (db.runs.filter (fun x => x.status == RunStatus.running)).map (fun x => x.id) :=
      List.mem_map_of_mem _ (List.mem_filter.mpr ⟨hr, by simp [hrs]⟩)
    have hnotP : r.id ∉ (db.runs.filter (fun x => x.status == RunStatus.pending)).map (fun x => x.id) :=
      id_not_in_status_ids db.runs hnd hr (by simp [hrs])
    have himg : (failMark ((db.runs.filter (fun x => x.status == RunStatus.pending)).map (fun x => x.id)) "Server crashed while pending" ∘
        failMark ((db.runs.filter (fun x => x.status == RunStatus.running)).map (fun x => x.id)) "Server crashed while running") r =
        { r with status := .failed, error := some "Server crashed while running" } := by
      simp [Function.comp, failMark, hidR, hnotP]
    rw [hfinalRuns, List.map_map, ← himg]
    exact List.mem_map_of_mem _ hr
  · intro hrs
    have hnotR : r.id ∉ (db.runs.filter (fun x => x.status == RunStatus.running)).map (fun x => x.id) :=
      id_not_in_status_ids db.runs hnd hr (by simp [hrs])
    have hidP : r.id ∈ (db.runs.filter (fun x => x.status == RunStatus.pending)).map (fun x => x.id) :=
      List.mem_map_of_mem _ (List.mem_filter.mpr ⟨hr, by simp [hrs]⟩)
    have himg : (failMark ((db.runs.filter (fun x => x.status == RunStatus.pending)).map (fun x => x.id)) "Server crashed while pending" ∘
        failMark ((db.runs.filter (fun x => x.status == RunStatus.running)).map (fun x => x.id)) "Server crashed while running") r =
        { r with status := .failed, error := some "Server crashed while pending" } := by
      simp [Function.comp, failMark, hnotR, hidP]
    rw [hfinalRuns, List.map_map, ← himg]
    exact List.mem_map_of_mem _ hr
  · intro s hs hsid hstale
    have hcomp : (staleMark ((db.runs.filter (fun x => x.status == RunStatus.pending)).map (fun x => x.id)) ∘
        staleMark ((db.runs.filter (fun x => x.status == RunStatus.running)).map (fun x => x.id))) s = staleFix s := by
      rcases hstale with hrs | hrs
      · have hidR : r.id ∈ (db.runs.filter (fun x => x.status == RunStatus.running)).map (fun x => x.id) :=
          List.mem_map_of_mem _ (List.mem_filter.mpr ⟨hr, by simp [hrs]⟩)
        have hnotP : r.id ∉ (db.runs.filter (fun x => x.status == RunStatus.pending)).map (fun x => x.id) :=
          id_not_in_status_ids db.runs hnd hr (by simp [hrs])
        simp [Function.comp, staleMark, hsid, hidR, hnotP, staleFix_run_id]
      · have hnotR : r.id ∉ (db.runs.filter (fun x => x.status == RunStatus.running)).map (fun x => x.id) :=
          id_not_in_status_ids db.runs hnd hr (by simp [hrs])
        have hidP : r.id ∈ (db.runs.filter (fun x => x.status == RunStatus.pending)).map (fun x => x.id) :=
          List.mem_map_of_mem _ (List.mem_filter.mpr ⟨hr, by simp [hrs]⟩)
        simp [Function.comp, staleMark, hsid, hnotR, hidP, staleFix_run_id]
    constructor
    · intro hss
      have himg : (staleMark ((db.runs.filter (fun x => x.status == RunStatus.pending)).map (fun x => x.id)) ∘
          staleMark ((db.runs.filter (fun x => x.status == RunStatus.running)).map (fun x => x.id))) s =
          { s with status := .failed, error := some "Interrupted" } := by
        rw [hcomp]
        simp [staleFix, hss]
      rw [hfinalSteps, List.map_map, ← himg]
      exact List.mem_map_of_mem _ hs
    · intro hss
      have himg : (staleMark ((db.runs.filter (fun x => x.status == RunStatus.pending)).map (fun x => x.id)) ∘
          staleMark ((db.runs.filter (fun x => x.status == RunStatus.running)).map (fun x => x.id))) s =
          { s with status := .skipped } := by
        rw [hcomp]
        simp [staleFix, hss]
      rw [hfinalSteps, List.map_map, ← himg]
      exact List.mem_map_of_mem _ hs

/-- Witness for the amended C5 theorem on `staleWitnessDb`. -/
theorem recoverStaleRuns_recovers_up_to_limit_witness :
    (⟨1, .failed, some "Server crashed while running"⟩ : DbRun) ∈ (recoverStaleRuns staleWitnessDb).runs
      ∧ (⟨2, .failed, some "Server crashed while pending"⟩ : DbRun) ∈ (recoverStaleRuns staleWitnessDb).runs
      ∧ (⟨1, .failed, some "Interrupted"⟩ : DbStep) ∈ (recoverStaleRuns staleWitnessDb).steps
      ∧ (⟨1, .skipped, none⟩ : DbStep) ∈ (recoverStaleRuns staleWitnessDb).steps := by
  have h1 := recoverStaleRuns_recovers_up_to_limit staleWitnessDb (by decide) (by decide) (by decide)
    ⟨1, .running, none⟩ (by decide)
  have h2 := recoverStaleRuns_recovers_up_to_limit staleWitnessDb (by decide) (by decide) (by decide)
    ⟨2, .pending, none⟩ (by decide)
  refine ⟨?_, ?_, ?_, ?_⟩
  · simpa using h1.1 rfl
  · simpa using h2.2.1 rfl
  · simpa using (h1.2.2 ⟨1, .running, none⟩ (by decide) rfl (Or.inl rfl)).1 rfl
  · simpa using (h1.2.2 ⟨1, .pending, none⟩ (by decide) rfl (Or.inl rfl)).2 rfl

theorem pollUntilAux_timeout {O : Type} (deadline : Nat) (now : Nat → Nat)
    (check : Nat → PollResult O) (tm : String) :
    ∀ n i polls fuel, (∀ j, j < n → now (i + j) < deadline ∧ check (i + j) = .cont) →
      deadline ≤ now (i + n) → n + 1 ≤ fuel →
      pollUntilAux deadline now (fun _ => false) (fun _ => false) check tm i polls fuel =
        some (.thrown tm, polls + n) := by
  intro n
  induction n with
  | zero =>
    intro i polls fuel _ hdl hfuel
    match fuel, hfuel with
    | f + 1, _ =>
      simp only [Nat.add_zero] at hdl
      simp only [pollUntilAux]
      have hno : ¬ now i < deadline := by omega
      simp [hno]
  | succ n ih =>
    intro i polls fuel h hdl hfuel
    match fuel, hfuel with
    | f + 1, hfuel =>
      obtain ⟨hn, hc⟩ := h 0 (by omega)
      simp only [Nat.add_zero] at hn hc
      simp only [pollUntilAux, hn, hc]
      have hres := ih (i + 1) (polls + 1) f
        (fun j hj => by
          have := h (j + 1) (by omega)
          constructor
          · have harith : i + (j + 1) = i + 1 + j := by omega
            rw [harith] at this
            exact this.1
          · have harith : i + (j + 1) = i + 1 + j := by omega
            rw [harith] at this
            exact this.2)
        (by rw [show i + (n + 1) = i + 1 + n by omega] at hdl; exact hdl)
        (by omega)
      simp [hres]
      omega

theorem pollUntilAux_done {O : Type} (deadline : Nat) (now : Nat → Nat)
    (check : Nat → PollResult O) (tm : String) (o : Option O) :
    ∀ n i polls fuel, (∀ j, j < n → now (i + j) < deadline ∧ check (i + j) = .cont) →
      now (i + n) < deadline → check (i + n) = .done o → n + 1 ≤ fuel →
      pollUntilAux deadline now (fun _ => false) (fun _ => false) check tm i polls fuel =
        some (.ok o, polls + n + 1) := by
  intro n
  induction n with
  | zero =>
    intro i polls fuel _ hnow hdone hfuel
    match fuel, hfuel with
    | f + 1, _ =>
      simp only [Nat.add_zero] at hnow hdone
      simp [pollUntilAux, hnow, hdone]
  | succ n ih =>
    intro i polls fuel h hnow hdone hfuel
    match fuel, hfuel with
    | f + 1, hfuel =>
      obtain ⟨hn, hc⟩ := h 0 (by omega)
      simp only [Nat.add_zero] at hn hc
      simp only [pollUntilAux, hn, hc]
      have harith : i + (n + 1) = i + 1 + n := by omega
      rw [harith] at hnow hdone
      have hres := ih (i + 1) (polls + 1) f
        (fun j hj => by
          have := h (j + 1) (by omega)
          have harith2 : i + (j + 1) = i + 1 + j := by omega
          rw [harith2] at this
          exact this)
        hnow hdone (by omega)
      simp [hres]
      omega

/-- C8.  With no cancellation: (i) a check that keeps answering
"continue" until the deadline passes makes `pollUntil` reject with exactly
the supplied `timeoutMessage` (not a generic error); (ii) a check that
answers done-with-output at iteration `n` (before the deadline) makes it
resolve with that output after exactly `n + 1` poll calls — `poll` is
never called again after the successful check.  Both hold for every
sufficient fuel. -/
theorem pollUntil_timeout_message_and_stops_on_done :
    (∀ (O : Type) (deadline : Nat) (now : Nat → Nat) (check : Nat → PollResult O)
        (tm : String) (n fuel : Nat),
      (∀ j, j < n → now j < deadline ∧ check j = .cont) →
      deadline ≤ now n → n + 1 ≤ fuel →
      pollUntil deadline now (fun _ => false) (fun _ => false) check tm fuel =
        some (.thrown tm, n))
    ∧ (∀ (O : Type) (deadline : Nat) (now : Nat → Nat) (check : Nat → PollResult O)
        (tm : String) (o : Option O) (n fuel : Nat),
      (∀ j, j < n → now j < deadline ∧ check j = .cont) →
      now n < deadline → check n = .done o → n + 1 ≤ fuel →
      pollUntil deadline now (fun _ => false) (fun _ => false) check tm fuel =
        some (.ok o, n + 1)) := by
  constructor
  · intro O deadline now check tm n fuel h hdl hfuel
    have := pollUntilAux_timeout deadline now check tm n 0 0 fuel
      (fun j hj => by simpa using h j hj) (by simpa using hdl) hfuel
    simpa using this
  · intro O deadline now check tm o n fuel h hnow hdone hfuel
    have := pollUntilAux_done deadline now check tm o n 0 0 fuel
      (fun j hj => by simpa using h j hj) (by simpa using hnow) (by simpa using hdone) hfuel
    simpa using this

/-- Witness for C8 at concrete schedules: time advances one unit per
iteration; with deadline 2 and an always-"continue" check the helper
throws the supplied message after 2 polls; with deadline 10 and a check
that reports done at iteration 2 it resolves with the output after
exactly 3 polls. -/
theorem pollUntil_timeout_message_and_stops_on_done_witness :
    pollUntil (O := Nat) 2 (fun j => j) (fun _ => false) (fun _ => false)
        (fun _ => .cont) "Build timed out" 3 = some (.thrown "Build timed out", 2)
      ∧ pollUntil (O := Nat) 10 (fun j => j) (fun _ => false) (fun _ => false)
        (fun j => if j < 2 then .cont else .done (some 7)) "Build timed out" 3 =
          some (.ok (some 7), 3) := by
  constructor
  · exact pollUntil_timeout_message_and_stops_on_done.1 Nat 2 (fun j => j) (fun _ => .cont)
      "Build timed out" 2 3 (by intro j hj; exact ⟨hj, rfl⟩) (by show (2:Nat) ≤ 2; omega) (by omega)
  · exact pollUntil_timeout_message_and_stops_on_done.2 Nat 10 (fun j => j)
      (fun j => if j < 2 then .cont else .done (some 7)) "Build timed out" (some 7) 2 3
      (by intro j hj; exact ⟨by show j < 10; omega, by simp [hj]⟩) (by show (2:Nat) < 10; omega) (by simp) (by omega)

theorem findClose_decomp :
    ∀ cs p a, findClose cs = some (p, a) → cs = p ++ '}' :: '}' :: a := by
  intro cs
  induction cs using findClose.induct with
  | case1 c1 c2 rest h =>
    intro p a heq
    simp [findClose, h] at heq
    obtain ⟨hp, ha⟩ := heq
    subst hp; subst ha
    simp [h.1, h.2]
  | case2 c1 c2 rest h ih =>
    intro p a heq
    simp only [findClose, if_neg h, Option.map_eq_some'] at heq
    obtain ⟨⟨q1, q2⟩, hq, heq2⟩ := heq
    simp only [Prod.mk.injEq] at heq2
    obtain ⟨hp, ha⟩ := heq2
    subst hp; subst ha
    have := ih q1 q2 hq
    simp [this]
  | case3 x h =>
    intro p a heq
    rw [findClose] at heq
    · exact absurd heq (by simp)
    · exact h

theorem findClose_append : ∀ (e : List Char), '}' ∉ e → ∀ a, findClose (e ++ '}' :: '}' :: a) = some (e, a) := by
  intro e
  induction e with
  | nil => intro _ a; simp [findClose]
  | cons c e ih =>
    intro he a
    have hc : ¬ c = '}' := by simp at he; exact fun h => he.1 h.symm
    have he' : '}' ∉ e := by simp at he; exact he.2
    cases e with
    | nil => simp [findClose, hc]
    | cons d e' =>
      have hrec := ih he' a
      simp only [List.cons_append]
      rw [findClose]
      simp only [List.cons_append] at hrec
      simp [hc, hrec]

theorem findGroup_append (e : List Char) (he : e ≠ []) (hne : '}' ∉ e) (a : List Char) :
    findGroup (e ++ '}' :: '}' :: a) = some (e, a) := by
  cases e with
  | nil => exact absurd rfl he
  | cons c e' =>
    have hne' : '}' ∉ e' := by simp at hne; exact hne.2
    simp [findGroup, findClose_append e' hne' a]

theorem findGroup_decomp : ∀ cs g a, findGroup cs = some (g, a) → cs = g ++ '}' :: '}' :: a ∧ g ≠ [] := by
  intro cs g a h
  cases cs with
  | nil => simp [findGroup] at h
  | cons c rest =>
    simp only [findGroup, Option.map_eq_some'] at h
    obtain ⟨⟨q1, q2⟩, hq, heq⟩ := h
    simp only [Prod.mk.injEq] at heq
    obtain ⟨hg, ha⟩ := heq
    subst hg; subst ha
    have := findClose_decomp rest q1 q2 hq
    simp [this]

theorem findTemplate_decomp :
    ∀ cs p g a, findTemplate cs = some (p, g, a) → cs = p ++ '{' :: '{' :: (g ++ '}' :: '}' :: a) := by
  intro cs
  induction cs using findTemplate.induct with
  | case1 =>
    intro p g a h
    simp [findTemplate] at h
  | case2 c =>
    intro p g a h
    simp [findTemplate] at h
  | case3 c1 c2 rest h g' a' hg =>
    intro p g a heq
    rw [findTemplate] at heq
    simp only [if_pos h, hg] at heq
    simp only [Option.some.injEq, Prod.mk.injEq] at heq
    obtain ⟨hp, hgg, ha⟩ := heq
    subst hp; subst hgg; subst ha
    obtain ⟨hdecomp, _⟩ := findGroup_decomp rest g' a' hg
    simp [h.1, h.2, hdecomp]
  | case4 c1 c2 rest h hg ih =>
    intro p g a heq
    rw [findTemplate] at heq
    simp only [if_pos h, hg, Option.map_eq_some'] at heq
    obtain ⟨⟨q1, q2, q3⟩, hq, heq2⟩ := heq
    simp only [Prod.mk.injEq] at heq2
    obtain ⟨hp, hgg, ha⟩ := heq2
    subst hp; subst hgg; subst ha
    have := ih q1 q2 q3 hq
    simp [this]
  | case5 c1 c2 rest h ih =>
    intro p g a heq
    rw [findTemplate] at heq
    simp only [if_neg h, Option.map_eq_some'] at heq
    obtain ⟨⟨q1, q2, q3⟩, hq, heq2⟩ := heq
    simp only [Prod.mk.injEq] at heq2
    obtain ⟨hp, hgg, ha⟩ := heq2
    subst hp; subst hgg; subst ha
    have := ih q1 q2 q3 hq
    simp [this]

theorem findTemplate_none_of_no_open : ∀ cs, '{' ∉ cs → findTemplate cs = none := by
  intro cs
  induction cs using findTemplate.induct with
  | case1 => intro _; simp [findTemplate]
  | case2 c => intro _; simp [findTemplate]
  | case3 c1 c2 rest h g' a' hg =>
    intro hno
    exact absurd h.1 (by simp at hno; exact fun hh => hno.1 hh.symm)
  | case4 c1 c2 rest h hg ih =>
    intro hno
    exact absurd h.1 (by simp at hno; exact fun hh => hno.1 hh.symm)
  | case5 c1 c2 rest h ih =>
    intro hno
    rw [findTemplate]
    simp only [if_neg h]
    have : '{' ∉ c2 :: rest := by simp at hno ⊢; exact ⟨hno.2.1, hno.2.2⟩
    simp [ih this]

theorem findTemplate_after_open (e : List Char) (he : e ≠ []) (hne : '}' ∉ e) (a : List Char) :
    findTemplate ('{' :: '{' :: (e ++ '}' :: '}' :: a)) = some ([], e, a) := by
  rw [findTemplate]
  simp [findGroup_append e he hne a]

theorem findTemplate_prepend : ∀ (t : List Char), '{' ∉ t → ∀ rest p g a,
    findTemplate rest = some (p, g, a) → findTemplate (t ++ rest) = some (t ++ p, g, a) := by
  intro t
  induction t with
  | nil => intro _ rest p g a h; simpa using h
  | cons c t ih =>
    intro ht rest p g a h
    have hc : ¬ c = '{' := by simp at ht; exact fun hh => ht.1 hh.symm
    have ht' : '{' ∉ t := by simp at ht; exact ht.2
    have hrec := ih ht' rest p g a h
    cases htr : t ++ rest with
    | nil =>
      rcases List.append_eq_nil.mp htr with ⟨ht0, hr0⟩
      subst hr0
      simp [findTemplate] at h
    | cons d tr =>
      simp only [List.cons_append, htr]
      rw [findTemplate]
      have hcond : ¬ (c = '{' ∧ d = '{') := fun hh => hc hh.1
      rw [htr] at hrec
      simp [hcond, hrec]

theorem findTemplate_suffix_lt (cs p g a : List Char)
    (h : findTemplate cs = some (p, g, a)) : a.length < cs.length := by
  have hd := findTemplate_decomp cs p g a h
  rw [hd]
  simp [List.length_append]
  omega

theorem containsOpen_append_open : ∀ xs ys : List Char, containsOpen (xs ++ '{' :: '{' :: ys) = true := by
  intro xs ys
  induction xs with
  | nil => simp [containsOpen]
  | cons c xs ih =>
    cases hx : xs ++ '{' :: '{' :: ys with
    | nil => simp at hx
    | cons d tr =>
      rw [List.cons_append, hx, containsOpen, ← hx, ih]
      simp

theorem containsOpen_false_of_no_open : ∀ cs : List Char, '{' ∉ cs → containsOpen cs = false := by
  intro cs
  induction cs using containsOpen.induct with
  | case1 c1 c2 rest ih =>
    intro hno
    have h1 : ¬ c1 = '{' := by simp at hno; exact fun hh => hno.1 hh.symm
    have h2 : '{' ∉ c2 :: rest := by simp at hno ⊢; exact ⟨hno.2.1, hno.2.2⟩
    rw [containsOpen, ih h2]
    simp [h1]
  | case2 x h =>
    intro _
    rw [containsOpen]
    exact h

theorem fullTemplateGroup_wrap (e : List Char) (he : e ≠ []) :
    fullTemplateGroup ('{' :: '{' :: (e ++ ['}', '}'])) = some e := by
  have hrev : (e ++ ['}', '}']).reverse = '}' :: '}' :: e.reverse := by simp
  have hne : e.reverse ≠ [] := by simpa using he
  simp [fullTemplateGroup, hrev, hne]

theorem fullTemplateGroup_none_of_head (c : Char) (hc : c ≠ '{') (cs : List Char) :
    fullTemplateGroup (c :: cs) = none := by
  cases cs with
  | nil => rfl
  | cons d cs' =>
    simp only [fullTemplateGroup]
    rw [if_neg (fun hh : c = '{' ∧ d = '{' => hc hh.1)]

theorem replaceStep_scalar (ctx : ResolveCtx) (pre g : List Char)
    (tail : Except String (List Char)) (v : JValue)
    (hres : resolveExpression (String.mk g) ctx = .ok v) (hscal : isScalar v = true) :
    replaceStep ctx pre g tail = tail.map (fun tl => pre ++ (jsStringScalar v).data ++ tl) := by
  unfold replaceStep
  rw [hres]
  cases v <;> simp_all [isScalar]

theorem replaceStep_nonscalar (ctx : ResolveCtx) (pre g : List Char)
    (tail : Except String (List Char)) (v : JValue)
    (hres : resolveExpression (String.mk g) ctx = .ok v)
    (hbad : v = .null ∨ (∃ xs, v = .arr xs) ∨ (∃ fs, v = .obj fs)) :
    ∃ msg, replaceStep ctx pre g tail = .error msg := by
  unfold replaceStep
  rw [hres]
  rcases hbad with hb | ⟨xs, hb⟩ | ⟨fs, hb⟩ <;> subst hb <;> exact ⟨_, rfl⟩

theorem replaceTemplatesAux_segs (ctx : ResolveCtx) :
    ∀ (segs : List (List Char × JValue × List Char)) (t0 : List Char) (fuel : Nat), '{' ∉ t0 →
      (∀ s ∈ segs, s.1 ≠ [] ∧ '}' ∉ s.1 ∧ '{' ∉ s.2.2
        ∧ resolveExpression (String.mk s.1) ctx = .ok s.2.1 ∧ isScalar s.2.1 = true) →
      (t0 ++ segsInput segs).length ≤ fuel →
      replaceTemplatesAux ctx fuel (t0 ++ segsInput segs) = .ok (t0 ++ segsOutput segs) := by
  intro segs
  induction segs with
  | nil =>
    intro t0 fuel ht0 _ _
    cases fuel with
    | zero => simp [replaceTemplatesAux, segsInput, segsOutput]
    | succ f =>
      have h0 : findTemplate t0 = none := findTemplate_none_of_no_open t0 ht0
      simp [replaceTemplatesAux, segsInput, segsOutput, h0]
  | cons seg segs ih =>
    intro t0 fuel ht0 hsegs hfuel
    obtain ⟨e, v, t⟩ := seg
    obtain ⟨he, hce, hct, hres, hscal⟩ := hsegs (e, v, t) (by simp)
    have hsegs' : ∀ s ∈ segs, s.1 ≠ [] ∧ '}' ∉ s.1 ∧ '{' ∉ s.2.2
        ∧ resolveExpression (String.mk s.1) ctx = .ok s.2.1 ∧ isScalar s.2.1 = true :=
      fun s hs => hsegs s (by simp [hs])
    have hfound : findTemplate (t0 ++ segsInput ((e, v, t) :: segs)) =
        some (t0, e, t ++ segsInput segs) := by
      have hin : segsInput ((e, v, t) :: segs) = '{' :: '{' :: (e ++ '}' :: '}' :: (t ++ segsInput segs)) := rfl
      rw [hin]
      exact findTemplate_prepend t0 ht0 _ [] e (t ++ segsInput segs)
        (findTemplate_after_open e he hce (t ++ segsInput segs)) |>.trans (by simp)
    have hlen : (t0 ++ segsInput ((e, v, t) :: segs)).length =
        t0.length + e.length + 4 + (t ++ segsInput segs).length := by
      simp [segsInput, List.length_append]
      omega
    cases fuel with
    | zero => rw [hlen] at hfuel; omega
    | succ f =>
      have hrec := ih t f hct hsegs' (by rw [hlen] at hfuel; omega)
      simp only [replaceTemplatesAux, hfound]
      rw [replaceStep_scalar ctx t0 e _ v hres hscal, hrec]
      simp [segsOutput, Except.map]

theorem replaceTemplates_segs (ctx : ResolveCtx) (segs : List (List Char × JValue × List Char))
    (t0 : List Char) (ht0 : '{' ∉ t0)
    (hsegs : ∀ s ∈ segs, s.1 ≠ [] ∧ '}' ∉ s.1 ∧ '{' ∉ s.2.2
      ∧ resolveExpression (String.mk s.1) ctx = .ok s.2.1 ∧ isScalar s.2.1 = true) :
    replaceTemplates ctx (t0 ++ segsInput segs) = .ok (t0 ++ segsOutput segs) :=
  replaceTemplatesAux_segs ctx segs t0 (t0 ++ segsInput segs).length ht0 hsegs (Nat.le_refl _)

theorem replaceTemplates_nonscalar_error (ctx : ResolveCtx) (t0 e a : List Char) (v : JValue)
    (ht0 : '{' ∉ t0) (he : e ≠ []) (hce : '}' ∉ e)
    (hres : resolveExpression (String.mk e) ctx = .ok v)
    (hbad : v = .null ∨ (∃ xs, v = .arr xs) ∨ (∃ fs, v = .obj fs)) :
    ∃ msg, replaceTemplates ctx (t0 ++ '{' :: '{' :: (e ++ '}' :: '}' :: a)) = .error msg := by
  have hfound : findTemplate (t0 ++ '{' :: '{' :: (e ++ '}' :: '}' :: a)) = some (t0, e, a) :=
    findTemplate_prepend t0 ht0 _ [] e a (findTemplate_after_open e he hce a) |>.trans (by simp)
  have hpos : ∃ f, (t0 ++ '{' :: '{' :: (e ++ '}' :: '}' :: a)).length = f + 1 := by
    refine ⟨(t0 ++ '{' :: '{' :: (e ++ '}' :: '}' :: a)).length - 1, ?_⟩
    simp [List.length_append]
    omega
  obtain ⟨f, hf⟩ := hpos
  unfold replaceTemplates
  rw [hf]
  simp only [replaceTemplatesAux, hfound]
  exact replaceStep_nonscalar ctx t0 e _ v hres hbad

theorem resolveConfig_str (s : String) (ctx : ResolveCtx) :
    resolveConfig (.str s) ctx = resolveString ctx s := rfl

theorem resolveString_full (ctx : ResolveCtx) (e : List Char) (v : JValue)
    (he : e ≠ []) (hres : resolveExpression (String.mk e) ctx = .ok v) :
    resolveString ctx (String.mk ('{' :: '{' :: (e ++ ['}', '}']))) = .ok v := by
  unfold resolveString
  rw [show (String.mk ('{' :: '{' :: (e ++ ['}', '}']))).data = '{' :: '{' :: (e ++ ['}', '}']) from rfl]
  rw [fullTemplateGroup_wrap e he]
  exact hres

theorem resolveString_mixed (ctx : ResolveCtx) (t0 : List Char)
    (segs : List (List Char × JValue × List Char)) (ht0ne : t0 ≠ []) (ht0 : '{' ∉ t0)
    (hsegs : ∀ s ∈ segs, s.1 ≠ [] ∧ '}' ∉ s.1 ∧ '{' ∉ s.2.2
      ∧ resolveExpression (String.mk s.1) ctx = .ok s.2.1 ∧ isScalar s.2.1 = true) :
    resolveString ctx (String.mk (t0 ++ segsInput segs)) =
      .ok (.str (String.mk (t0 ++ segsOutput segs))) := by
  obtain ⟨c, t0', rfl⟩ : ∃ c t0', t0 = c :: t0' := by
    cases t0 with
    | nil => exact absurd rfl ht0ne
    | cons c t => exact ⟨c, t, rfl⟩
  have hc : c ≠ '{' := by
    simp at ht0
    exact fun hh => ht0.1 hh.symm
  unfold resolveString
  rw [show (String.mk (c :: t0' ++ segsInput segs)).data = c :: (t0' ++ segsInput segs) from rfl]
  rw [fullTemplateGroup_none_of_head c hc _]
  cases segs with
  | nil =>
    have hnone : containsOpen (c :: (t0' ++ segsInput [])) = false := by
      refine containsOpen_false_of_no_open _ ?_
      simpa [segsInput] using ht0
    rw [hnone]
    simp [segsInput, segsOutput]
  | cons seg segs' =>
    obtain ⟨e, v, t⟩ := seg
    have hopen : containsOpen (c :: (t0' ++ segsInput ((e, v, t) :: segs'))) = true := by
      have hin : segsInput ((e, v, t) :: segs') =
          '{' :: '{' :: (e ++ '}' :: '}' :: (t ++ segsInput segs')) := rfl
      rw [hin, show c :: (t0' ++ '{' :: '{' :: (e ++ '}' :: '}' :: (t ++ segsInput segs'))) =
        (c :: t0') ++ '{' :: '{' :: (e ++ '}' :: '}' :: (t ++ segsInput segs')) from rfl]
      exact containsOpen_append_open (c :: t0') _
    rw [hopen]
    simp only [if_true]
    rw [show c :: (t0' ++ segsInput ((e, v, t) :: segs')) = (c :: t0') ++ segsInput ((e, v, t) :: segs') from rfl]
    rw [replaceTemplates_segs ctx ((e, v, t) :: segs') (c :: t0') ht0 hsegs]
    simp [Except.map]

theorem resolveString_mixed_nonscalar (ctx : ResolveCtx) (t0 e a : List Char) (v : JValue)
    (ht0ne : t0 ≠ []) (ht0 : '{' ∉ t0) (he : e ≠ []) (hce : '}' ∉ e)
    (hres : resolveExpression (String.mk e) ctx = .ok v)
    (hbad : v = .null ∨ (∃ xs, v = .arr xs) ∨ (∃ fs, v = .obj fs)) :
    ∃ msg, resolveString ctx (String.mk (t0 ++ '{' :: '{' :: (e ++ '}' :: '}' :: a))) = .error msg := by
  obtain ⟨c, t0', rfl⟩ : ∃ c t0', t0 = c :: t0' := by
    cases t0 with
    | nil => exact absurd rfl ht0ne
    | cons c t => exact ⟨c, t, rfl⟩
  have hc : c ≠ '{' := by
    simp at ht0
    exact fun hh => ht0.1 hh.symm
  unfold resolveString
  rw [show (String.mk (c :: t0' ++ '{' :: '{' :: (e ++ '}' :: '}' :: a))).data =
    c :: (t0' ++ '{' :: '{' :: (e ++ '}' :: '}' :: a)) from rfl]
  rw [fullTemplateGroup_none_of_head c hc _]
  have hopen : containsOpen (c :: (t0' ++ '{' :: '{' :: (e ++ '}' :: '}' :: a))) = true := by
    rw [show c :: (t0' ++ '{' :: '{' :: (e ++ '}' :: '}' :: a)) =
      (c :: t0') ++ '{' :: '{' :: (e ++ '}' :: '}' :: a) from rfl]
    exact containsOpen_append_open (c :: t0') _
  rw [hopen]
  simp only [if_true]
  rw [show c :: (t0' ++ '{' :: '{' :: (e ++ '}' :: '}' :: a)) =
    (c :: t0') ++ '{' :: '{' :: (e ++ '}' :: '}' :: a) from rfl]
  obtain ⟨msg, hmsg⟩ := replaceTemplates_nonscalar_error ctx (c :: t0') e a v ht0 he hce hres hbad
  exact ⟨msg, by rw [hmsg]; rfl⟩

/-- C6.  The string cases of `resolveConfig`: (i) a string that is exactly
one template expression resolves to the referenced value with its native
type preserved (arrays, objects and scalars returned as-is); (ii) a string
with leading text and any number of embedded expressions resolving to
scalars resolves to the string in which each embedded expression is
stringified; (iii) if an embedded expression in such a string resolves to
null, an array or an object, resolution throws an error. -/
theorem resolveConfig_string_semantics :
    (∀ (ctx : ResolveCtx) (e : List Char) (v : JValue), e ≠ [] →
      resolveExpression (String.mk e) ctx = .ok v →
      resolveConfig (.str (String.mk ('{' :: '{' :: (e ++ ['}', '}'])))) ctx = .ok v)
    ∧ (∀ (ctx : ResolveCtx) (t0 : List Char) (segs : List (List Char × JValue × List Char)),
      t0 ≠ [] → '{' ∉ t0 →
      (∀ s ∈ segs, s.1 ≠ [] ∧ '}' ∉ s.1 ∧ '{' ∉ s.2.2
        ∧ resolveExpression (String.mk s.1) ctx = .ok s.2.1 ∧ isScalar s.2.1 = true) →
      resolveConfig (.str (String.mk (t0 ++ segsInput segs))) ctx =
        .ok (.str (String.mk (t0 ++ segsOutput segs))))
    ∧ (∀ (ctx : ResolveCtx) (t0 e a : List Char) (v : JValue),
      t0 ≠ [] → '{' ∉ t0 → e ≠ [] → '}' ∉ e →
      resolveExpression (String.mk e) ctx = .ok v →
      (v = .null ∨ (∃ xs, v = .arr xs) ∨ (∃ fs, v = .obj fs)) →
      ∃ msg, resolveConfig (.str (String.mk (t0 ++ '{' :: '{' :: (e ++ '}' :: '}' :: a)))) ctx = .error msg) := by
  refine ⟨?_, ?_, ?_⟩
  · intro ctx e v he hres
    rw [resolveConfig_str]
    exact resolveString_full ctx e v he hres
  · intro ctx t0 segs ht0ne ht0 hsegs
    rw [resolveConfig_str]
    exact resolveString_mixed ctx t0 segs ht0ne ht0 hsegs
  · intro ctx t0 e a v ht0ne ht0 he hce hres hbad
    obtain ⟨msg, hmsg⟩ := resolveString_mixed_nonscalar ctx t0 e a v ht0ne ht0 he hce hres hbad
    exact ⟨msg, by rw [resolveConfig_str]; exact hmsg⟩

/-- Witness for C6, with `vars.x = [1, 2]` and `param.y = "abc"`: the
full-string template returns the array itself; the mixed string
interpolates the parameter; a mixed string embedding an array-valued
expression errors. -/
theorem resolveConfig_string_semantics_witness :
    resolveConfig (.str "\x7b\x7bvars.x\x7d\x7d")
        ⟨[("y", .str "abc")], [("x", .arr [.num 1, .num 2])]⟩ = .ok (.arr [.num 1, .num 2])
      ∧ resolveConfig (.str "prefix-\x7b\x7bparam.y\x7d\x7d-suffix")
        ⟨[("y", .str "abc")], [("x", .arr [.num 1, .num 2])]⟩ = .ok (.str "prefix-abc-suffix")
      ∧ ∃ msg, resolveConfig (.str "a\x7b\x7bvars.x\x7d\x7db")
        ⟨[("y", .str "abc")], [("x", .arr [.num 1, .num 2])]⟩ = .error msg := by
  refine ⟨?_, ?_, ?_⟩
  · exact resolveConfig_string_semantics.1 ⟨[("y", .str "abc")], [("x", .arr [.num 1, .num 2])]⟩
      "vars.x".data (.arr [.num 1, .num 2]) (by decide) rfl
  · exact resolveConfig_string_semantics.2.1 ⟨[("y", .str "abc")], [("x", .arr [.num 1, .num 2])]⟩
      "prefix-".data [("param.y".data, JValue.str "abc", "-suffix".data)] (by decide) (by decide)
      (by
        intro s hs
        simp only [List.mem_singleton] at hs
        subst hs
        exact ⟨by decide, by decide, by decide, rfl, rfl⟩)
  · exact resolveConfig_string_semantics.2.2 ⟨[("y", .str "abc")], [("x", .arr [.num 1, .num 2])]⟩
      "a".data "vars.x".data "b".data (.arr [.num 1, .num 2]) (by decide) (by decide) (by decide)
      (by decide) rfl (Or.inr (Or.inl ⟨[.num 1, .num 2], rfl⟩))

end Trigger
